import Mathlib

/-!
Verification model of the telegram-chat-manager archive merge engine
(src/utils/zipUtils.ts).  JavaScript strings are modelled as lists of
characters, JavaScript Map and Set objects as insertion-ordered
association lists (set replaces the value in place at an existing key
and appends otherwise), thrown exceptions as Except values, and the
nondeterministic environment reads of the recency heuristic (Date.now,
Math.random) as an explicit oracle argument threaded through the fold.
-/

namespace ZipUtils

/-- JavaScript strings are sequences of characters. -/
abbrev JStr : Type := List Char

/-- Substring occurrence test, auxiliary recursion over the scanned list. -/
def containsAux (pat : JStr) : JStr → Bool
  | [] => pat.isEmpty
  | c :: rest => List.isPrefixOf pat (c :: rest) || containsAux pat rest

/-- Model of the JavaScript String.includes test. -/
def strIncludes (s pat : JStr) : Bool := containsAux pat s

/-- Lookup in an insertion-ordered association list (JavaScript Map.get). -/
def assocGet {κ β : Type} [DecidableEq κ] (k : κ) : List (κ × β) → Option β
  | [] => none
  | p :: rest => if p.1 = k then some p.2 else assocGet k rest

/-- Update of an insertion-ordered association list (JavaScript Map.set):
an existing key keeps its position and gets the new value, a new key is
appended at the end. -/
def assocSet {κ β : Type} [DecidableEq κ] (m : List (κ × β)) (k : κ) (v : β) : List (κ × β) :=
  if (assocGet k m).isSome then m.map (fun p => if p.1 = k then (k, v) else p)
  else m ++ [(k, v)]

/-- Insertion-ordered set add (JavaScript Set.add). -/
def setAdd {α : Type} [DecidableEq α] (s : List α) (x : α) : List α :=
  if x ∈ s then s else s ++ [x]

/-- Model of the JavaScript String.split at the path separator, auxiliary
recursion carrying the current segment in reverse. -/
def splitSlashAux : JStr → JStr → List JStr
  | acc, [] => [acc.reverse]
  | acc, c :: rest =>
    if c = '/' then acc.reverse :: splitSlashAux [] rest
    else splitSlashAux (c :: acc) rest

/-- Model of the JavaScript String.split at the path separator. -/
def splitSlash (s : JStr) : List JStr := splitSlashAux [] s

/-- Model of Array.join at the path separator. -/
def joinSlash : List JStr → JStr
  | [] => []
  | [x] => x
  | x :: y :: rest => x ++ '/' :: joinSlash (y :: rest)

/-- The designated message-log filename. -/
def resultJsonName : JStr := "result.json".toList

/-- One message record of a result.json log: the merge engine reads only
the id and the truthiness of the edited field; every other field is
opaque passthrough, represented by the tag `rest` so that two records
with equal id can still be distinguished. -/
structure TelegramMessage where
  id : Int
  edited : Bool
  rest : Nat := 0
deriving DecidableEq, Repr

/-- Parsed content of one result.json file.  The messages field of the
source is either a proper array (`some`) or absent / not an array
(`none`), which the source treats as empty. -/
structure ResultData where
  id : Int
  name : JStr
  type : JStr
  messages : Option (List TelegramMessage)
deriving DecidableEq, Repr

/-- What loading and JSON-parsing the message log of one archive yields:
the log entry can be missing (the source skips the archive), the JSON
text can fail to parse (the source throws), or parsing succeeds. -/
inductive LogSource where
  | absent : LogSource
  | malformed : JStr → LogSource
  | parsed : ResultData → LogSource
deriving DecidableEq, Repr

/-- One file entry of a raw zip archive.  The size field is the size
metadata the archive carries for the entry (none when unavailable); the
source never reads it and reports the comment length instead.  The data
field tags the entry content so that winning copies can be told apart. -/
structure RawEntry where
  path : JStr
  dir : Bool
  comment : Option JStr := none
  size : Option Nat := none
  data : Nat := 0
deriving DecidableEq, Repr

/-- The slice of a ZipContent value that the combine operations read:
the display name, the root prefix and entry table of the original zip,
the outcome of loading its message log, and whether inspection recorded
an error. -/
structure ZipContent where
  name : JStr
  rootPrefix : JStr
  log : LogSource
  entries : List RawEntry
  error : Bool
deriving DecidableEq, Repr

/-- Messages of a parsed log, with absent or non-array messages read as
empty exactly as the source does. -/
def msgsOf (d : ResultData) : List TelegramMessage := d.messages.getD []

/-- One step of the global dedup loop of combineResultJsonWithStats: a
new id is inserted; an already-seen id is replaced only when the new
record is edited and the kept one is not. -/
def processMessage (m : List (Int × TelegramMessage)) (message : TelegramMessage) :
    List (Int × TelegramMessage) :=
  match assocGet message.id m with
  | none => assocSet m message.id message
  | some kept =>
    if message.edited && !kept.edited then assocSet m message.id message else m

/-- Global dedup over one flat list of messages. -/
def mergeMessages (msgs : List TelegramMessage) : List (Int × TelegramMessage) :=
  msgs.foldl processMessage []

/-- The nested message loop of combineResultJsonWithStats: all messages
of all parsed logs, in supply order, folded into the id map. -/
def buildMessageMap (rs : List ResultData) : List (Int × TelegramMessage) :=
  rs.foldl (fun m d => (msgsOf d).foldl processMessage m) []

/-- Ascending stable sort by message id, the model of
Array.prototype.sort with comparator a.id - b.id. -/
def sortMessages (l : List TelegramMessage) : List TelegramMessage :=
  List.insertionSort (fun a b => a.id ≤ b.id) l

/-- Decimal rendering of a chat id inside an error message. -/
def numToStr (i : Int) : JStr := (toString i).toList

/-- The inner chat-id mismatch message thrown by the combine loop. -/
def chatIdMismatchMsg (fid did : Int) : JStr :=
  "Chat ID mismatch: ".toList ++ numToStr fid ++ " !== ".toList ++ numToStr did
    ++ ". Cannot combine different chats.".toList

/-- The per-archive wrapper that the catch block puts around any error
thrown while processing one archive. -/
def processingErrorMsg (nm msg : JStr) : JStr :=
  "Error processing ".toList ++ nm ++ ": ".toList ++ msg

/-- Accumulator of the parsing loop of combineResultJsonWithStats. -/
structure ParseState where
  resultJsons : List ResultData
  firstChatId : Option Int
  chatName : Option JStr
  chatType : Option JStr
  totalInputMessages : Nat
deriving DecidableEq, Repr

/-- Initial accumulator of the parsing loop. -/
def initParseState : ParseState :=
  { resultJsons := [], firstChatId := none, chatName := none, chatType := none,
    totalInputMessages := 0 }

/-- One iteration of the parsing loop of combineResultJsonWithStats:
skip archives without a loadable log, fail on a log that does not parse,
accumulate the input message count, then either record the reference
identity (first parsed archive) or enforce it (all later ones). -/
def parseStep (st : ParseState) (c : ZipContent) : Except JStr ParseState :=
  match c.log with
  | LogSource.absent => Except.ok st
  | LogSource.malformed msg => Except.error (processingErrorMsg c.name msg)
  | LogSource.parsed d =>
    let total := st.totalInputMessages + (msgsOf d).length
    match st.firstChatId with
    | none =>
      Except.ok { resultJsons := st.resultJsons ++ [d], firstChatId := some d.id,
                  chatName := some d.name, chatType := some d.type,
                  totalInputMessages := total }
    | some fid =>
      if fid ≠ d.id then
        Except.error (processingErrorMsg c.name (chatIdMismatchMsg fid d.id))
      else
        Except.ok { st with resultJsons := st.resultJsons ++ [d], totalInputMessages := total }

/-- The parsing loop, with the thrown error aborting the whole run. -/
def parseAll (st : ParseState) : List ZipContent → Except JStr ParseState
  | [] => Except.ok st
  | c :: cs =>
    match parseStep st c with
    | Except.error e => Except.error e
    | Except.ok st1 => parseAll st1 cs

/-- The combined result.json value: identity of the first parsed archive
plus the deduplicated, id-sorted message sequence. -/
structure CombinedResult where
  name : Option JStr
  type : Option JStr
  id : Option Int
  messages : List TelegramMessage
deriving DecidableEq, Repr

/-- Return value of combineResultJsonWithStats; the source serializes
`combined` into the buffer it returns and names the unique message count
totalMessages. -/
structure MergeOutput where
  combined : CombinedResult
  totalMessages : Nat
  duplicateMessages : Int
deriving DecidableEq, Repr

/-- Model of combineResultJsonWithStats: parse every loadable log in
supply order, refuse id mismatches and unparsable logs, dedup all
messages globally, sort by id, and compute the statistics. -/
def combineResultJsonWithStats (contents : List ZipContent) : Except JStr MergeOutput :=
  if contents.length = 0 then Except.error "No valid Telegram exports to combine".toList
  else
    match parseAll initParseState contents with
    | Except.error e => Except.error e
    | Except.ok st =>
      if st.resultJsons.length = 0 then Except.error "No valid result.json files found".toList
      else
        let messages := sortMessages ((buildMessageMap st.resultJsons).map Prod.snd)
        let uniqueMessageCount := messages.length
        let duplicateMessages : Int := max 0 ((st.totalInputMessages : Int) - (uniqueMessageCount : Int))
        Except.ok { combined := { name := st.chatName, type := st.chatType,
                                  id := st.firstChatId, messages := messages },
                    totalMessages := uniqueMessageCount,
                    duplicateMessages := duplicateMessages }

/-- Skip test of unzipFile: hidden files and macOS metadata directories. -/
def skipEntryPath (p : JStr) : Bool :=
  List.isPrefixOf ".".toList p || List.isPrefixOf "__MACOSX".toList p ||
    strIncludes p "/__MACOSX/".toList

/-- Match test of the first pass of unzipFile: a non-directory entry
whose path is the bare log filename or ends with the separator plus that
filename. -/
def isLogMatch (e : RawEntry) : Bool :=
  !e.dir && (e.path = resultJsonName || List.isSuffixOf ('/' :: resultJsonName) e.path)

/-- Path prefix derived from a nested log path: the path split at the
separators, the filename popped, the rest rejoined with a trailing
separator. -/
def dirJoin (p : JStr) : JStr := joinSlash (splitSlash p).dropLast ++ ['/']

/-- Accumulator of the first pass of unzipFile. -/
structure ScanState where
  hasResultsJson : Bool
  resultJsonPath : JStr
  rootPrefix : JStr
deriving DecidableEq, Repr

/-- One iteration of the first pass of unzipFile: every match overwrites
hasResultsJson and resultJsonPath, and overwrites rootPrefix only when
the match is not the bare filename. -/
def scanStep (st : ScanState) (e : RawEntry) : ScanState :=
  if skipEntryPath e.path then st
  else if isLogMatch e then
    let st1 := { st with hasResultsJson := true, resultJsonPath := e.path }
    if e.path ≠ resultJsonName then { st1 with rootPrefix := dirJoin e.path } else st1
  else st

/-- The first pass of unzipFile over all entries. -/
def scanForResultJson (entries : List RawEntry) : ScanState :=
  entries.foldl scanStep { hasResultsJson := false, resultJsonPath := [], rootPrefix := [] }

/-- Append one root-relative path under its first segment in the folder
contents table (plain object used as a map in the source). -/
def pushFolder (fc : List (JStr × List JStr)) (k v : JStr) : List (JStr × List JStr) :=
  match assocGet k fc with
  | none => fc ++ [(k, [v])]
  | some _ => fc.map (fun p => if p.1 = k then (p.1, p.2 ++ [v]) else p)

/-- One iteration of the second pass of unzipFile, accumulating the
root-relative file list and the folder contents table. -/
def collectStep (rootPrefix : JStr) (st : List JStr × List (JStr × List JStr))
    (e : RawEntry) : List JStr × List (JStr × List JStr) :=
  if skipEntryPath e.path then st
  else if !rootPrefix.isEmpty then
    if !(List.isPrefixOf rootPrefix e.path) then st
    else
      let adjustedPath := e.path.drop rootPrefix.length
      if !e.dir && !adjustedPath.isEmpty then
        (st.1 ++ [adjustedPath],
          if adjustedPath.contains '/' then
            pushFolder st.2 ((splitSlash adjustedPath).headD []) adjustedPath
          else st.2)
      else st
  else
    if !e.dir then
      (st.1 ++ [e.path],
        if e.path.contains '/' then
          pushFolder st.2 ((splitSlash e.path).headD []) e.path
        else st.2)
    else st

/-- The folder contents table built by the second pass. -/
def folderContentsOf (rootPrefix : JStr) (entries : List RawEntry) :
    List (JStr × List JStr) :=
  (entries.foldl (collectStep rootPrefix) ([], [])).2

/-- The root-relative file list built by the second pass. -/
def allFilesOf (rootPrefix : JStr) (entries : List RawEntry) : List JStr :=
  (entries.foldl (collectStep rootPrefix) ([], [])).1

/-- One top-level summary item. -/
structure FileItem where
  name : JStr
  path : JStr
  size : Nat
  isDirectory : Bool
  fileCount : Option Nat
deriving DecidableEq, Repr

/-- The helper processFilePath of unzipFile: emit one summary item for a
first path segment not seen before; a bare top-level file reports the
comment length of its entry as size, every other case is reported as a
directory of size zero with the collected child count. -/
def processFilePath (folderContents : List (JStr × List JStr))
    (st : List JStr × List FileItem) (filePath : JStr) (e : RawEntry) :
    List JStr × List FileItem :=
  let pathParts := splitSlash filePath
  let topLevel := pathParts.headD []
  if st.1.contains topLevel || topLevel.isEmpty then st
  else
    let processed := st.1 ++ [topLevel]
    if pathParts.length = 1 && !e.dir then
      (processed, st.2 ++ [{ name := topLevel, path := filePath,
                             size := (e.comment.map List.length).getD 0,
                             isDirectory := false, fileCount := none }])
    else
      (processed, st.2 ++ [{ name := topLevel, path := topLevel ++ ['/'], size := 0,
                             isDirectory := true,
                             fileCount := some ((assocGet topLevel folderContents).getD []).length }])

/-- One iteration of the third pass of unzipFile. -/
def summaryStep (rootPrefix : JStr) (fc : List (JStr × List JStr))
    (st : List JStr × List FileItem) (e : RawEntry) : List JStr × List FileItem :=
  if skipEntryPath e.path then st
  else if !rootPrefix.isEmpty then
    if List.isPrefixOf rootPrefix e.path then
      let adjustedPath := e.path.drop rootPrefix.length
      if !adjustedPath.isEmpty then processFilePath fc st adjustedPath e else st
    else st
  else processFilePath fc st e.path e

/-- The unsorted top-level summary built by the third pass. -/
def topLevelItemsOf (rootPrefix : JStr) (fc : List (JStr × List JStr))
    (entries : List RawEntry) : List FileItem :=
  (entries.foldl (summaryStep rootPrefix fc) ([], [])).2

/-- Comparator of the summary sort: directories before files, then the
name comparison lc.  The source calls String.localeCompare here, whose
result depends on the runtime locale, so lc is an environment input. -/
def itemLe (lc : JStr → JStr → Int) (a b : FileItem) : Bool :=
  if a.isDirectory && !b.isDirectory then true
  else if !a.isDirectory && b.isDirectory then false
  else lc a.name b.name ≤ 0

/-- Inspection result of one archive. -/
structure UnzipResult where
  name : JStr
  files : List JStr
  topLevelItems : List FileItem
  hasResultsJson : Bool
  rootPrefix : JStr
  resultJsonPath : JStr
  error : Option JStr
deriving DecidableEq, Repr

/-- Model of unzipFile: the three passes over the entry table, the
summary sort (a stable sort under the comparator, as Array.sort is), and
the missing-log error. -/
def unzipFile (lc : JStr → JStr → Int) (name : JStr) (entries : List RawEntry) :
    UnzipResult :=
  let scan := scanForResultJson entries
  let fc := folderContentsOf scan.rootPrefix entries
  { name := name,
    files := allFilesOf scan.rootPrefix entries,
    topLevelItems :=
      List.insertionSort (fun a b => itemLe lc a b = true)
        (topLevelItemsOf scan.rootPrefix fc entries),
    hasResultsJson := scan.hasResultsJson,
    rootPrefix := scan.rootPrefix,
    resultJsonPath := scan.resultJsonPath,
    error := if !scan.hasResultsJson then
        some "No result.json found in the archive. This may not be a valid Telegram export.".toList
      else none }

/-- Placeholder recency score of combineZipContents: the source computes
Date.now() minus the floor of Math.random() scaled by ten million, plus
one hundred times the path length; the two environment reads are passed
as the draw arguments now and rand. -/
def getTimestampFromPath (now rand : Int) (path : JStr) : Int :=
  let pathFactor : Int := (path.length : Int) * 100
  now - rand + pathFactor

/-- Constraint every real draw satisfies: the clock value is nonnegative
and the floored scaled random draw lies in [0, 10000000). -/
def validDraw (d : Int × Int) : Prop :=
  0 ≤ d.1 ∧ 0 ≤ d.2 ∧ d.2 < 10000000

instance (d : Int × Int) : Decidable (validDraw d) :=
  inferInstanceAs (Decidable (0 ≤ d.1 ∧ 0 ≤ d.2 ∧ d.2 < 10000000))

/-- Filtering and root adjustment of one raw entry in the file loop of
combineZipContents: none when the loop skips the entry (a directory, a
path outside the resolved root, a hidden or macOS metadata path, an
empty adjusted path, or the message log itself), otherwise the
root-relative path the entry is written at. -/
def adjustEntry (rootPrefix : JStr) (e : RawEntry) : Option JStr :=
  if e.dir || (!rootPrefix.isEmpty && !(List.isPrefixOf rootPrefix e.path)) ||
      List.isPrefixOf ".".toList e.path || List.isPrefixOf "__MACOSX/".toList e.path ||
      strIncludes e.path "/__MACOSX/".toList then none
  else
    let adjustedPath := if !rootPrefix.isEmpty then e.path.drop rootPrefix.length else e.path
    if adjustedPath.isEmpty then none
    else if adjustedPath = resultJsonName then none
    else some adjustedPath

/-- Content slot of the combined zip: an ordinary file copy identified by
its data tag, or the serialized merged log. -/
inductive OutData where
  | fileData : Nat → OutData
  | logData : CombinedResult → OutData
deriving DecidableEq, Repr

/-- Accumulator of the file loop of combineZipContents: the winner table
(path to recency score), the top-level folder set, the write counter, the
combined zip under construction, and the number of draws consumed. -/
structure CombState where
  fileMap : List (JStr × Int)
  folders : List JStr
  totalFiles : Nat
  zipOut : List (JStr × OutData)
  draws : Nat
deriving DecidableEq, Repr

/-- Initial accumulator of the file loop. -/
def initCombState : CombState :=
  { fileMap := [], folders := [], totalFiles := 0, zipOut := [], draws := 0 }

/-- Body of the file loop of combineZipContents once an entry survives
the skip chain, taking the adjusted path and the content tag of the
entry: record the top-level folder, draw a score, and write the copy
when no copy is kept yet or the new score strictly exceeds the kept one;
every write increments totalFiles. -/
def procCand (oracle : Nat → Int × Int) (st : CombState) (pd : JStr × Nat) : CombState :=
  let pathParts := splitSlash pd.1
  let st1 := if pathParts.length > 1 then
      { st with folders := setAdd st.folders (pathParts.headD []) }
    else st
  let d := oracle st1.draws
  let currentTimestamp := getTimestampFromPath d.1 d.2 pd.1
  let st2 := { st1 with draws := st1.draws + 1 }
  let keep : Bool :=
    match assocGet pd.1 st2.fileMap with
    | none => true
    | some existing => decide (currentTimestamp > existing)
  match keep with
  | true =>
    { st2 with fileMap := assocSet st2.fileMap pd.1 currentTimestamp,
               zipOut := assocSet st2.zipOut pd.1 (OutData.fileData pd.2),
               totalFiles := st2.totalFiles + 1 }
  | false => st2

/-- One iteration of the file loop of combineZipContents: the skip chain
(adjustEntry), then the write body (procCand). -/
def combStep (oracle : Nat → Int × Int) (rootPrefix : JStr) (st : CombState)
    (e : RawEntry) : CombState :=
  match adjustEntry rootPrefix e with
  | none => st
  | some adjustedPath => procCand oracle st (adjustedPath, e.data)

/-- The file loop over one archive. -/
def combineFilesContent (oracle : Nat → Int × Int) (st : CombState) (c : ZipContent) :
    CombState :=
  c.entries.foldl (combStep oracle c.rootPrefix) st

/-- Return value of combineZipContents; files is the combined zip. -/
structure CombineZipOutput where
  files : List (JStr × OutData)
  totalMessages : Nat
  duplicateMessages : Int
  folders : List JStr
  totalFiles : Nat
deriving DecidableEq, Repr

/-- Model of combineZipContents: filter out archives with an inspection
error, run the file loop over every remaining archive in order, then
merge the logs and write the merged log at the canonical root path.  The
model supplies every archive with its entry table, so the missing-source
throw of the source cannot fire here. -/
def combineZipContents (oracle : Nat → Int × Int) (contents : List ZipContent) :
    Except JStr CombineZipOutput :=
  let validContents := contents.filter (fun c => !c.error)
  if validContents.length = 0 then
    Except.error "No valid Telegram exports to combine".toList
  else
    let st := validContents.foldl (combineFilesContent oracle) initCombState
    match combineResultJsonWithStats validContents with
    | Except.error e =>
      Except.error ("Error combining result.json files: ".toList ++ e)
    | Except.ok mo =>
      Except.ok { files := assocSet st.zipOut resultJsonName (OutData.logData mo.combined),
                  totalMessages := mo.totalMessages,
                  duplicateMessages := mo.duplicateMessages,
                  folders := st.folders,
                  totalFiles := st.totalFiles }

/-- Chat ids of the parseable logs, in supply order. -/
def chatIds (contents : List ZipContent) : List Int :=
  contents.filterMap (fun c =>
    match c.log with
    | LogSource.parsed d => some d.id
    | _ => none)

/-- The parsed logs, in supply order. -/
def parsedLogs (contents : List ZipContent) : List ResultData :=
  contents.filterMap (fun c =>
    match c.log with
    | LogSource.parsed d => some d
    | _ => none)

/-- An archive whose log is not malformed (it is absent or parses). -/
def goodLog (c : ZipContent) : Prop := ∀ s, c.log ≠ LogSource.malformed s

/-- Message count one archive contributes to totalInputMessages. -/
def msgCountOf (c : ZipContent) : Nat :=
  match c.log with
  | LogSource.parsed d => (msgsOf d).length
  | _ => 0

/-- Sum of the per-archive message counts before dedup. -/
def totalInputOf (contents : List ZipContent) : Nat := (contents.map msgCountOf).sum

/-- Root-relative paths the file loop of combineZipContents processes,
across all archives that pass the error filter, in processing order. -/
def candidatePaths (contents : List ZipContent) : List JStr :=
  ((contents.filter (fun c => !c.error)).map
    (fun c => c.entries.filterMap (adjustEntry c.rootPrefix))).flatten

/-- Surviving entries of one archive as pairs of adjusted path and
content tag, in processing order. -/
def candEntries (c : ZipContent) : List (JStr × Nat) :=
  c.entries.filterMap (fun e => (adjustEntry c.rootPrefix e).map (fun a => (a, e.data)))

/-- Surviving entries across all archives passing the error filter. -/
def allCandEntries (contents : List ZipContent) : List (JStr × Nat) :=
  ((contents.filter (fun c => !c.error)).map candEntries).flatten

/-- Root adjustment of one entry as the third pass of unzipFile performs
it: none when the pass skips the entry (hidden or macOS metadata path,
outside the resolved root, or empty after stripping), otherwise the
root-relative path the entry is summarized under. -/
def adjustedSummaryPath (rootPrefix : JStr) (e : RawEntry) : Option JStr :=
  if skipEntryPath e.path then none
  else if !rootPrefix.isEmpty then
    if List.isPrefixOf rootPrefix e.path then
      if !(e.path.drop rootPrefix.length).isEmpty then
        some (e.path.drop rootPrefix.length)
      else none
    else none
  else some e.path

/-- Shape every emitted summary item has: a directory item has size zero
and reports the collected child count under its name; a file item sits
at the root-adjusted path of its own archive entry, a non-directory
entry, and reports the comment length of that entry (zero when the
comment is absent), never its size metadata. -/
def goodItem (rootPrefix : JStr) (fc : List (JStr × List JStr)) (entries : List RawEntry)
    (it : FileItem) : Prop :=
  (it.isDirectory = true → it.size = 0 ∧
    it.fileCount = some ((assocGet it.name fc).getD []).length) ∧
  (it.isDirectory = false → ∃ e, e ∈ entries ∧ e.dir = false ∧
    adjustedSummaryPath rootPrefix e = some it.path ∧
    it.size = (e.comment.map List.length).getD 0)

/-- Invariant of the id map: the keys are distinct and every stored
record carries its key as id. -/
def goodMap (m : List (Int × TelegramMessage)) : Prop :=
  (m.map Prod.fst).Nodup ∧ ∀ p ∈ m, p.2.id = p.1

/-- Entries of the combined zip other than the merged message log. -/
def ordinaryFiles (out : CombineZipOutput) : List (JStr × OutData) :=
  out.files.filter (fun p => p.1 ≠ resultJsonName)

/-- Success projection of the merge result. -/
def mergeOk : Except JStr MergeOutput → Option MergeOutput
  | Except.ok o => some o
  | Except.error _ => none

/-- Success projection of the combine result. -/
def zipOk : Except JStr CombineZipOutput → Option CombineZipOutput
  | Except.ok o => some o
  | Except.error _ => none

/-- Transcription of the dedup policy as the claim words it, for one id:
the first record with the id is kept, and a later record replaces the
kept one exactly when the new record carries an edit marker and the kept
one does not. -/
def specStep (kept : Option TelegramMessage) (msg : TelegramMessage) :
    Option TelegramMessage :=
  match kept with
  | none => some msg
  | some k => if msg.edited && !k.edited then some msg else some k

/-- Transcription of the claim policy folded over every record carrying
the given id, in supply order. -/
def specKeptForId (i : Int) (msgs : List TelegramMessage) : Option TelegramMessage :=
  (msgs.filter (fun m => m.id = i)).foldl specStep none

/-- Candidate log paths of the first pass, in scan order: non-directory
entries surviving the hidden-path filter whose path matches the log
filename test. -/
def matchPaths (entries : List RawEntry) : List JStr :=
  ((entries.filter (fun e => !skipEntryPath e.path)).filter
    (fun e => isLogMatch e)).map RawEntry.path

/-- Transcription of the claim words: the first matching candidate wins. -/
def specFirstMatchPath (entries : List RawEntry) : Option JStr :=
  (matchPaths entries).head?

/-- Transcription of the claim words: the size of a file entry is its
available size metadata, falling back to zero when unavailable. -/
def specFileSize (e : RawEntry) : Nat := e.size.getD 0

/-- A parsed demo log. -/
def mkLog (i : Int) (msgs : List TelegramMessage) : LogSource :=
  LogSource.parsed { id := i, name := "c".toList, type := "personal_chat".toList,
                     messages := some msgs }

/-- Demo archive pair of the spec §8 merge scenario: messages 1 and
2-edited in the first archive, 2-plain and 3 in the second. -/
def demoMerge : List ZipContent :=
  [{ name := "a.zip".toList, rootPrefix := [],
     log := mkLog 42 [{ id := 1, edited := false, rest := 0 },
                      { id := 2, edited := true, rest := 0 }],
     entries := [], error := false },
   { name := "b.zip".toList, rootPrefix := [],
     log := mkLog 42 [{ id := 2, edited := false, rest := 1 },
                      { id := 3, edited := false, rest := 0 }],
     entries := [], error := false }]

/-- Demo archive pair with mismatching chat ids 100 and 200. -/
def demoMismatch : List ZipContent :=
  [{ name := "a.zip".toList, rootPrefix := [],
     log := mkLog 100 [], entries := [], error := false },
   { name := "b.zip".toList, rootPrefix := [],
     log := mkLog 200 [], entries := [], error := false }]

/-- Demo archive whose log repeats message id 1, so that a single merge
already removes one duplicate. -/
def demoSelfDup : List ZipContent :=
  [{ name := "a.zip".toList, rootPrefix := [],
     log := mkLog 7 [{ id := 1, edited := false, rest := 0 },
                     { id := 1, edited := false, rest := 1 }],
     entries := [], error := false }]

/-- Demo archive pair carrying the same media path with different
content tags, used for the file-reconciliation runs. -/
def demoMedia : List ZipContent :=
  [{ name := "a.zip".toList, rootPrefix := [],
     log := mkLog 7 [], error := false,
     entries := [{ path := "result.json".toList, dir := false },
                 { path := "media/a.bin".toList, dir := false, data := 1 }] },
   { name := "b.zip".toList, rootPrefix := [],
     log := mkLog 7 [], error := false,
     entries := [{ path := "result.json".toList, dir := false },
                 { path := "media/a.bin".toList, dir := false, data := 2 }] }]

/-- Oracle of a run where the clock advanced between the two draws. -/
def laterOracle : Nat → Int × Int :=
  fun k => if k = 0 then (1000, 0) else (2000, 0)

/-- Oracle of a run where both draws observe the same clock and random
value. -/
def sameOracle : Nat → Int × Int := fun _ => (1000, 0)

/-- Demo entry table with two nested copies of the message log. -/
def demoTwoLogs : List RawEntry :=
  [{ path := "a/result.json".toList, dir := false },
   { path := "b/result.json".toList, dir := false }]

/-- Demo entry table whose top-level file a.txt carries size metadata 7
and no comment. -/
def demoSized : List RawEntry :=
  [{ path := "result.json".toList, dir := false },
   { path := "a.txt".toList, dir := false, size := some 7 }]

/-- Degenerate locale comparison used to instantiate the sort comparator
in concrete runs. -/
def lc0 : JStr → JStr → Int := fun _ _ => 0

/-- Demo archive pair with distinct media paths across the archives. -/
def demoDistinct : List ZipContent :=
  [{ name := "a.zip".toList, rootPrefix := [],
     log := mkLog 7 [], error := false,
     entries := [{ path := "result.json".toList, dir := false },
                 { path := "media/a.bin".toList, dir := false, data := 1 }] },
   { name := "b.zip".toList, rootPrefix := [],
     log := mkLog 7 [], error := false,
     entries := [{ path := "result.json".toList, dir := false },
                 { path := "media/b.bin".toList, dir := false, data := 2 }] }]

/-- The combine output of demoDistinct under laterOracle. -/
def demoDistinctOut : CombineZipOutput :=
  { files := [("media/a.bin".toList, OutData.fileData 1),
              ("media/b.bin".toList, OutData.fileData 2),
              ("result.json".toList, OutData.logData
                { name := some "c".toList, type := some "personal_chat".toList,
                  id := some 7, messages := [] })],
    totalMessages := 0, duplicateMessages := 0,
    folders := ["media".toList], totalFiles := 2 }

/-- The merge output of demoMerge. -/
def demoMergeOut : MergeOutput :=
  { combined := { name := some "c".toList, type := some "personal_chat".toList,
                  id := some 42,
                  messages := [{ id := 1, edited := false, rest := 0 },
                               { id := 2, edited := true, rest := 0 },
                               { id := 3, edited := false, rest := 0 }] },
    totalMessages := 3, duplicateMessages := 1 }

/-- Demo entry table with the log at the root, carrying a two-character
entry comment, and one nested photo. -/
def demoFolder : List RawEntry :=
  [{ path := "result.json".toList, dir := false, comment := some "ab".toList },
   { path := "photos/a.jpg".toList, dir := false }]

/-- The summary item the inspection of demoFolder emits for photos. -/
def demoDirItem : FileItem :=
  { name := "photos".toList, path := "photos/".toList, size := 0,
    isDirectory := true, fileCount := some 1 }

/-- The summary item the inspection of demoFolder emits for the log
file itself: its size is the comment length of its own entry. -/
def demoFileItem : FileItem :=
  { name := "result.json".toList, path := "result.json".toList, size := 2,
    isDirectory := false, fileCount := none }

instance : IsTotal TelegramMessage (fun a b => a.id ≤ b.id) :=
  ⟨fun a b => Int.le_total a.id b.id⟩

instance : IsTrans TelegramMessage (fun a b => a.id ≤ b.id) :=
  ⟨fun _ _ _ h1 h2 => le_trans h1 h2⟩

lemma assocGet_append_of_none {κ β : Type} [DecidableEq κ] {k : κ} {m l : List (κ × β)}
    (h : assocGet k m = none) : assocGet k (m ++ l) = assocGet k l := by
  induction m with
  | nil => simp
  | cons p rest ih =>
    simp only [assocGet] at h ⊢
    by_cases hp : p.1 = k
    · simp [hp] at h
    · simp only [hp, if_false] at h ⊢
      exact ih h

lemma assocGet_map_set_of_isSome {κ β : Type} [DecidableEq κ] {k : κ} {m : List (κ × β)}
    (v : β) (h : (assocGet k m).isSome) :
    assocGet k (m.map (fun p => if p.1 = k then (k, v) else p)) = some v := by
  induction m with
  | nil => simp [assocGet] at h
  | cons p rest ih =>
    by_cases hp : p.1 = k
    · simp [assocGet, hp]
    · simp only [assocGet, hp, if_false] at h
      simp only [List.map_cons, assocGet, hp, if_false]
      exact ih h

lemma assocGet_map_set_ne {κ β : Type} [DecidableEq κ] {k k2 : κ} {m : List (κ × β)}
    (v : β) (h : k2 ≠ k) :
    assocGet k2 (m.map (fun p => if p.1 = k then (k, v) else p)) = assocGet k2 m := by
  induction m with
  | nil => simp
  | cons p rest ih =>
    by_cases hp : p.1 = k
    · have hk : ¬(k = k2) := fun hh => h hh.symm
      simp [assocGet, hp, hk, ih]
    · simp [assocGet, hp, ih]

lemma assocGet_append_ne {κ β : Type} [DecidableEq κ] {k k2 : κ} (v : β)
    (m : List (κ × β)) (h : k2 ≠ k) :
    assocGet k2 (m ++ [(k, v)]) = assocGet k2 m := by
  induction m with
  | nil => simp [assocGet, Ne.symm h]
  | cons p rest ih =>
    by_cases hp : p.1 = k2
    · simp [assocGet, hp]
    · simp [assocGet, hp, ih]

lemma assocGet_assocSet_self {κ β : Type} [DecidableEq κ] (m : List (κ × β)) (k : κ) (v : β) :
    assocGet k (assocSet m k v) = some v := by
  unfold assocSet
  cases hh : assocGet k m with
  | none =>
    simp only [Option.isSome_none, Bool.false_eq_true, if_false]
    rw [assocGet_append_of_none hh]
    simp [assocGet]
  | some w =>
    simp only [Option.isSome_some, if_true]
    exact assocGet_map_set_of_isSome v (by simp [hh])

lemma assocGet_assocSet_ne {κ β : Type} [DecidableEq κ] (m : List (κ × β)) {k k2 : κ}
    (v : β) (h : k2 ≠ k) : assocGet k2 (assocSet m k v) = assocGet k2 m := by
  unfold assocSet
  cases hh : assocGet k m with
  | none =>
    simp only [Option.isSome_none, Bool.false_eq_true, if_false]
    exact assocGet_append_ne v m h
  | some w =>
    simp only [Option.isSome_some, if_true]
    exact assocGet_map_set_ne v h

lemma keys_assocSet_of_isSome {κ β : Type} [DecidableEq κ] {k : κ} {m : List (κ × β)}
    (v : β) (h : (assocGet k m).isSome) :
    (assocSet m k v).map Prod.fst = m.map Prod.fst := by
  unfold assocSet
  rw [if_pos h, List.map_map]
  refine List.map_congr_left ?_
  intro p _
  by_cases hp : p.1 = k
  · simp [hp, Function.comp]
  · simp [hp, Function.comp]

lemma keys_assocSet_of_none {κ β : Type} [DecidableEq κ] {k : κ} {m : List (κ × β)}
    (v : β) (h : assocGet k m = none) :
    (assocSet m k v).map Prod.fst = m.map Prod.fst ++ [k] := by
  unfold assocSet
  simp [h]

lemma assocGet_isSome_iff_mem {κ β : Type} [DecidableEq κ] (k : κ) (m : List (κ × β)) :
    (assocGet k m).isSome ↔ k ∈ m.map Prod.fst := by
  induction m with
  | nil => simp [assocGet]
  | cons p rest ih =>
    simp only [assocGet, List.map_cons, List.mem_cons]
    by_cases hp : p.1 = k
    · simp [hp]
    · have hk : ¬ k = p.1 := fun hh => hp hh.symm
      simp [hp, hk, ih]

lemma mem_values_assocSet {κ β : Type} [DecidableEq κ] {m : List (κ × β)} {k : κ} {v : β}
    {p : κ × β} (h : p ∈ assocSet m k v) : p ∈ m ∨ p = (k, v) := by
  unfold assocSet at h
  by_cases hs : (assocGet k m).isSome
  · rw [if_pos hs] at h
    rw [List.mem_map] at h
    obtain ⟨q, hq, hqe⟩ := h
    by_cases hk : q.1 = k
    · right
      simp only [hk, if_true] at hqe
      exact hqe.symm
    · left
      simp only [hk, if_false] at hqe
      exact hqe ▸ hq
  · rw [if_neg hs, List.mem_append, List.mem_singleton] at h
    exact h

lemma processMessage_get_self (m : List (Int × TelegramMessage)) (msg : TelegramMessage) :
    assocGet msg.id (processMessage m msg) = specStep (assocGet msg.id m) msg := by
  unfold processMessage
  cases hh : assocGet msg.id m with
  | none => simp [specStep, assocGet_assocSet_self]
  | some kept =>
    simp only [specStep]
    by_cases he : (msg.edited && !kept.edited) = true
    · simp [he, assocGet_assocSet_self]
    · simp only [he, if_false]
      simp only [Bool.not_eq_true] at he
      simp [he, hh]

lemma processMessage_get_ne (m : List (Int × TelegramMessage)) (msg : TelegramMessage)
    {i : Int} (h : i ≠ msg.id) :
    assocGet i (processMessage m msg) = assocGet i m := by
  unfold processMessage
  cases hh : assocGet msg.id m with
  | none => exact assocGet_assocSet_ne m msg h
  | some kept =>
    by_cases he : (msg.edited && !kept.edited) = true
    · simp only [he, if_true]
      exact assocGet_assocSet_ne m msg h
    · simp [he]

lemma foldl_processMessage_get (msgs : List TelegramMessage) :
    ∀ (m : List (Int × TelegramMessage)) (i : Int),
      assocGet i (msgs.foldl processMessage m) =
        (msgs.filter (fun x => x.id = i)).foldl specStep (assocGet i m) := by
  induction msgs with
  | nil => intro m i; simp
  | cons msg tail ih =>
    intro m i
    by_cases h : msg.id = i
    · have hfilter : (msg :: tail).filter (fun x => decide (x.id = i)) =
          msg :: tail.filter (fun x => decide (x.id = i)) := by
        simp [List.filter_cons, h]
      rw [List.foldl_cons, hfilter, List.foldl_cons, ih]
      congr 1
      rw [← h, processMessage_get_self]
    · have hfilter : (msg :: tail).filter (fun x => decide (x.id = i)) =
          tail.filter (fun x => decide (x.id = i)) := by
        simp [List.filter_cons, h]
      rw [List.foldl_cons, hfilter, ih]
      congr 1
      exact processMessage_get_ne m msg (fun hh => h hh.symm)

lemma buildMessageMap_foldl (rs : List ResultData) :
    ∀ m, rs.foldl (fun m d => (msgsOf d).foldl processMessage m) m =
      ((rs.map msgsOf).flatten).foldl processMessage m := by
  induction rs with
  | nil => intro m; simp
  | cons d tail ih =>
    intro m
    simp only [List.foldl_cons, List.map_cons, List.flatten_cons, List.foldl_append]
    exact ih ((msgsOf d).foldl processMessage m)

lemma buildMessageMap_eq (rs : List ResultData) :
    buildMessageMap rs = mergeMessages ((rs.map msgsOf).flatten) := by
  unfold buildMessageMap mergeMessages
  exact buildMessageMap_foldl rs []

lemma specStep_isSome (kept : Option TelegramMessage) (msg : TelegramMessage) :
    (specStep kept msg).isSome := by
  cases kept with
  | none => simp [specStep]
  | some k =>
    simp only [specStep]
    by_cases he : (msg.edited && !k.edited) = true
    · simp [he]
    · simp [he]

lemma foldl_specStep_isSome (l : List TelegramMessage) (kept : Option TelegramMessage)
    (h : l ≠ []) : (l.foldl specStep kept).isSome := by
  induction l generalizing kept with
  | nil => exact absurd rfl h
  | cons x tail ih =>
    rw [List.foldl_cons]
    by_cases ht : tail = []
    · subst ht
      simpa using specStep_isSome kept x
    · exact ih (specStep kept x) ht

lemma foldl_specStep_none_of_nil (kept : Option TelegramMessage) :
    ([] : List TelegramMessage).foldl specStep kept = kept := rfl

lemma mergeMessages_isSome_iff (msgs : List TelegramMessage) (i : Int) :
    (assocGet i (mergeMessages msgs)).isSome ↔ i ∈ msgs.map (fun x => x.id) := by
  unfold mergeMessages
  rw [foldl_processMessage_get]
  constructor
  · intro h
    by_cases hf : msgs.filter (fun x => x.id = i) = []
    · rw [hf] at h
      simp [assocGet] at h
    · obtain ⟨x, hx⟩ := List.exists_mem_of_ne_nil _ hf
      have := List.of_mem_filter hx
      have hxm := List.mem_of_mem_filter hx
      simp only [decide_eq_true_eq] at this
      exact List.mem_map.mpr ⟨x, hxm, this⟩
  · intro h
    obtain ⟨x, hxm, hxi⟩ := List.mem_map.mp h
    have hf : msgs.filter (fun x => x.id = i) ≠ [] := by
      intro hnil
      have : x ∈ msgs.filter (fun x => decide (x.id = i)) :=
        List.mem_filter.mpr ⟨hxm, by simp [hxi]⟩
      rw [hnil] at this
      exact absurd this (List.not_mem_nil x)
    simpa [assocGet] using foldl_specStep_isSome _ _ hf

lemma goodMap_assocSet {m : List (Int × TelegramMessage)} (msg : TelegramMessage)
    (hg : goodMap m) : goodMap (assocSet m msg.id msg) := by
  constructor
  · cases hh : assocGet msg.id m with
    | none =>
      rw [keys_assocSet_of_none msg hh]
      have hnm : msg.id ∉ m.map Prod.fst := by
        rw [← assocGet_isSome_iff_mem, hh]
        simp
      rw [List.nodup_append]
      refine ⟨hg.1, List.nodup_singleton _, ?_⟩
      simpa [List.disjoint_singleton] using hnm
    | some w =>
      rw [keys_assocSet_of_isSome msg (by simp [hh])]
      exact hg.1
  · intro p hp
    rcases mem_values_assocSet hp with hm | he
    · exact hg.2 p hm
    · subst he; rfl

lemma goodMap_processMessage {m : List (Int × TelegramMessage)} (msg : TelegramMessage)
    (hg : goodMap m) : goodMap (processMessage m msg) := by
  unfold processMessage
  cases hh : assocGet msg.id m with
  | none => exact goodMap_assocSet msg hg
  | some kept =>
    by_cases he : (msg.edited && !kept.edited) = true
    · simp only [he, if_true]
      exact goodMap_assocSet msg hg
    · simpa [he] using hg

lemma goodMap_foldl (msgs : List TelegramMessage) :
    ∀ m, goodMap m → goodMap (msgs.foldl processMessage m) := by
  induction msgs with
  | nil => intro m hg; simpa using hg
  | cons msg tail ih =>
    intro m hg
    rw [List.foldl_cons]
    exact ih _ (goodMap_processMessage msg hg)

lemma goodMap_nil : goodMap [] := by constructor <;> simp

lemma goodMap_buildMessageMap (rs : List ResultData) : goodMap (buildMessageMap rs) := by
  rw [buildMessageMap_eq]
  exact goodMap_foldl _ _ goodMap_nil

lemma values_ids_eq_keys {m : List (Int × TelegramMessage)}
    (h : ∀ p ∈ m, p.2.id = p.1) :
    (m.map Prod.snd).map (fun x => x.id) = m.map Prod.fst := by
  rw [List.map_map]
  exact List.map_congr_left (fun p hp => h p hp)

lemma totalInputOf_cons (c : ZipContent) (cs : List ZipContent) :
    totalInputOf (c :: cs) = msgCountOf c + totalInputOf cs := by
  simp [totalInputOf]

lemma parseAll_ok_spine : ∀ (cs : List ZipContent) (st0 st : ParseState),
    parseAll st0 cs = Except.ok st →
    st.resultJsons = st0.resultJsons ++ parsedLogs cs ∧
    st.totalInputMessages = st0.totalInputMessages + totalInputOf cs ∧
    (∀ c ∈ cs, goodLog c) ∧
    (∀ i, st0.firstChatId = some i →
      st.firstChatId = some i ∧ ∀ d ∈ parsedLogs cs, d.id = i) ∧
    (st0.firstChatId = none → ∀ d0, (parsedLogs cs).head? = some d0 →
      st.firstChatId = some d0.id ∧ ∀ d ∈ parsedLogs cs, d.id = d0.id) := by
  intro cs
  induction cs with
  | nil =>
    intro st0 st h
    simp only [parseAll] at h
    injection h with h
    subst h
    refine ⟨by simp [parsedLogs], by simp [totalInputOf], by simp, ?_, ?_⟩
    · intro i hi
      exact ⟨hi, by simp [parsedLogs]⟩
    · intro _ d0 hd0
      simp [parsedLogs] at hd0
  | cons c cs ih =>
    intro st0 st h
    simp only [parseAll, parseStep] at h
    cases hlog : c.log with
    | absent =>
      rw [hlog] at h
      dsimp only at h
      obtain ⟨h1, h2, h3, h4, h5⟩ := ih st0 st h
      refine ⟨by simpa [parsedLogs, List.filterMap_cons, hlog] using h1,
        by simpa [totalInputOf_cons, msgCountOf, hlog] using h2, ?_, ?_, ?_⟩
      · intro c2 hc2
        rcases List.mem_cons.mp hc2 with he | hm
        · subst he; intro s2; simp [goodLog, hlog]
        · exact h3 c2 hm
      · intro i hi
        obtain ⟨ha, hb⟩ := h4 i hi
        exact ⟨ha, by simpa [parsedLogs, List.filterMap_cons, hlog] using hb⟩
      · intro hn d0 hd0
        rw [parsedLogs, List.filterMap_cons, hlog] at hd0
        obtain ⟨ha, hb⟩ := h5 hn d0 (by simpa [parsedLogs] using hd0)
        exact ⟨ha, by simpa [parsedLogs, List.filterMap_cons, hlog] using hb⟩
    | malformed msg =>
      rw [hlog] at h
      dsimp only at h
      simp at h
    | parsed d =>
      rw [hlog] at h
      dsimp only at h
      have hpl : parsedLogs (c :: cs) = d :: parsedLogs cs := by
        simp [parsedLogs, List.filterMap_cons, hlog]
      have hgood : goodLog c := by
        intro s2
        simp [hlog]
      cases hfid : st0.firstChatId with
      | none =>
        rw [hfid] at h
        dsimp only at h
        obtain ⟨h1, h2, h3, h4, h5⟩ := ih _ st h
        dsimp only at h1 h2 h4 h5
        refine ⟨?_, ?_, ?_, ?_, ?_⟩
        · rw [hpl]
          simpa [List.append_assoc] using h1
        · rw [totalInputOf_cons]
          simp only [msgCountOf, hlog]
          omega
        · intro c2 hc2
          rcases List.mem_cons.mp hc2 with he | hm
          · subst he; exact hgood
          · exact h3 c2 hm
        · intro i hi
          exact absurd hi (by simp)
        · intro _ d0 hd0
          rw [hpl] at hd0
          simp only [List.head?_cons, Option.some.injEq] at hd0
          subst hd0
          obtain ⟨ha, hb⟩ := h4 d.id rfl
          refine ⟨ha, ?_⟩
          rw [hpl]
          intro d2 hd2
          rcases List.mem_cons.mp hd2 with he | hm
          · subst he; rfl
          · exact hb d2 hm
      | some fid =>
        rw [hfid] at h
        dsimp only at h
        by_cases hne : fid ≠ d.id
        · rw [if_pos hne] at h
          dsimp only at h
          simp at h
        · rw [if_neg hne] at h
          dsimp only at h
          have hde : fid = d.id := not_not.mp hne
          obtain ⟨h1, h2, h3, h4, h5⟩ := ih _ st h
          dsimp only at h1 h2 h4 h5
          refine ⟨?_, ?_, ?_, ?_, ?_⟩
          · rw [hpl]
            simpa [List.append_assoc] using h1
          · rw [totalInputOf_cons]
            simp only [msgCountOf, hlog]
            omega
          · intro c2 hc2
            rcases List.mem_cons.mp hc2 with he | hm
            · subst he; exact hgood
            · exact h3 c2 hm
          · intro i hi
            injection hi with hi
            subst hi
            obtain ⟨ha, hb⟩ := h4 fid rfl
            refine ⟨ha, ?_⟩
            rw [hpl]
            intro d2 hd2
            rcases List.mem_cons.mp hd2 with he | hm
            · subst he; exact hde.symm
            · exact hb d2 hm
          · intro hn
            exact absurd hn (by simp)

lemma parseAll_run : ∀ (cs : List ZipContent) (st0 : ParseState) (i : Int),
    st0.firstChatId = some i → (∀ c ∈ cs, goodLog c) →
    (∀ d ∈ parsedLogs cs, d.id = i) →
    parseAll st0 cs = Except.ok
      { resultJsons := st0.resultJsons ++ parsedLogs cs,
        firstChatId := st0.firstChatId,
        chatName := st0.chatName, chatType := st0.chatType,
        totalInputMessages := st0.totalInputMessages + totalInputOf cs } := by
  intro cs
  induction cs with
  | nil =>
    intro st0 i hfid hgood hids
    simp [parseAll, parsedLogs, totalInputOf]
  | cons c cs ih =>
    intro st0 i hfid hgood hids
    simp only [parseAll, parseStep]
    cases hlog : c.log with
    | absent =>
      dsimp only
      rw [ih st0 i hfid (fun c2 hc2 => hgood c2 (List.mem_cons_of_mem c hc2))
        (fun d hd => hids d (by simpa [parsedLogs, List.filterMap_cons, hlog] using hd))]
      simp [parsedLogs, List.filterMap_cons, hlog, totalInputOf_cons, msgCountOf]
    | malformed msg =>
      exact absurd hlog (hgood c (List.mem_cons_self c cs) msg)
    | parsed d =>
      dsimp only
      rw [hfid]
      dsimp only
      have hpl : parsedLogs (c :: cs) = d :: parsedLogs cs := by
        simp [parsedLogs, List.filterMap_cons, hlog]
      have hdid : d.id = i := hids d (by rw [hpl]; exact List.mem_cons_self d _)
      have hne : ¬ i ≠ d.id := by simp [hdid]
      rw [if_neg hne]
      dsimp only
      rw [ih _ i rfl (fun c2 hc2 => hgood c2 (List.mem_cons_of_mem c hc2))
        (fun d2 hd2 => hids d2 (by rw [hpl]; exact List.mem_cons_of_mem d hd2))]
      rw [hpl, totalInputOf_cons]
      simp only [msgCountOf, hlog, hfid]
      congr 1
      refine ParseState.mk.injEq _ _ _ _ _ _ _ _ _ _ |>.mpr ?_ |>.symm
      refine ⟨by simp [List.append_assoc], rfl, rfl, rfl, by omega⟩

lemma parseAll_mismatch_of_ref : ∀ (cs : List ZipContent) (st0 : ParseState) (i : Int),
    st0.firstChatId = some i → (∀ c ∈ cs, goodLog c) →
    (∃ j ∈ chatIds cs, j ≠ i) →
    ∃ nm j, j ≠ i ∧
      parseAll st0 cs = Except.error (processingErrorMsg nm (chatIdMismatchMsg i j)) := by
  intro cs
  induction cs with
  | nil =>
    intro st0 i hfid hgood hex
    simp [chatIds] at hex
  | cons c cs ih =>
    intro st0 i hfid hgood hex
    simp only [parseAll, parseStep]
    cases hlog : c.log with
    | absent =>
      dsimp only
      exact ih st0 i hfid (fun c2 hc2 => hgood c2 (List.mem_cons_of_mem c hc2))
        (by simpa [chatIds, List.filterMap_cons, hlog] using hex)
    | malformed msg =>
      exact absurd hlog (hgood c (List.mem_cons_self c cs) msg)
    | parsed d =>
      dsimp only
      rw [hfid]
      dsimp only
      by_cases hd : d.id = i
      · have hne : ¬ i ≠ d.id := by simp [hd]
        rw [if_neg hne]
        dsimp only
        have hex2 : ∃ j ∈ chatIds cs, j ≠ i := by
          obtain ⟨j, hj, hji⟩ := hex
          rw [chatIds, List.filterMap_cons, hlog] at hj
          rcases List.mem_cons.mp hj with he | hm
          · exact absurd (he ▸ hd) hji
          · exact ⟨j, hm, hji⟩
        exact ih _ i rfl (fun c2 hc2 => hgood c2 (List.mem_cons_of_mem c hc2)) hex2
      · have hne : i ≠ d.id := fun hh => hd hh.symm
        rw [if_pos hne]
        exact ⟨c.name, d.id, fun hh => hd hh, rfl⟩

lemma parseAll_mismatch_start : ∀ (cs : List ZipContent) (st0 : ParseState),
    st0.firstChatId = none → (∀ c ∈ cs, goodLog c) →
    ∀ i rest, chatIds cs = i :: rest → (∃ j ∈ rest, j ≠ i) →
    ∃ nm j, j ≠ i ∧
      parseAll st0 cs = Except.error (processingErrorMsg nm (chatIdMismatchMsg i j)) := by
  intro cs
  induction cs with
  | nil =>
    intro st0 hfid hgood i rest hchat hex
    simp [chatIds] at hchat
  | cons c cs ih =>
    intro st0 hfid hgood i rest hchat hex
    simp only [parseAll, parseStep]
    cases hlog : c.log with
    | absent =>
      dsimp only
      refine ih st0 hfid (fun c2 hc2 => hgood c2 (List.mem_cons_of_mem c hc2)) i rest ?_ hex
      simpa [chatIds, List.filterMap_cons, hlog] using hchat
    | malformed msg =>
      exact absurd hlog (hgood c (List.mem_cons_self c cs) msg)
    | parsed d =>
      dsimp only
      rw [hfid]
      dsimp only
      rw [chatIds, List.filterMap_cons, hlog] at hchat
      simp only [List.cons.injEq] at hchat
      obtain ⟨hdi, hrest⟩ := hchat
      refine parseAll_mismatch_of_ref cs _ i ?_
        (fun c2 hc2 => hgood c2 (List.mem_cons_of_mem c hc2)) ?_
      · simp [hdi]
      · rw [← hrest] at hex
        exact hex

lemma getLastD_cons {α : Type} (l : List α) : ∀ (a d : α),
    (a :: l).getLast?.getD d = l.getLast?.getD a := by
  induction l with
  | nil => intro a d; simp
  | cons b l ih =>
    intro a d
    rw [List.getLast?_cons_cons, ih b d, ih b a]

lemma getLastD_map_cons {α β : Type} (f : α → β) (l : List α) : ∀ (a : α) (d : β),
    ((a :: l).getLast?.map f).getD d = (l.getLast?.map f).getD (f a) := by
  induction l with
  | nil => intro a d; simp
  | cons b l ih =>
    intro a d
    rw [List.getLast?_cons_cons, ih b d, ih b (f a)]

lemma matchPaths_cons (e : RawEntry) (entries : List RawEntry) :
    matchPaths (e :: entries) =
      if !skipEntryPath e.path && isLogMatch e then e.path :: matchPaths entries
      else matchPaths entries := by
  by_cases h1 : skipEntryPath e.path
  · simp [matchPaths, List.filter_cons, h1]
  · by_cases h2 : isLogMatch e
    · simp [matchPaths, List.filter_cons, h1, h2]
    · simp [matchPaths, List.filter_cons, h1, h2]

lemma scan_foldl (entries : List RawEntry) : ∀ st : ScanState,
    entries.foldl scanStep st =
      { hasResultsJson := st.hasResultsJson || !(matchPaths entries).isEmpty,
        resultJsonPath := (matchPaths entries).getLast?.getD st.resultJsonPath,
        rootPrefix :=
          (((matchPaths entries).filter (fun p => p ≠ resultJsonName)).getLast?.map
            dirJoin).getD st.rootPrefix } := by
  induction entries with
  | nil =>
    intro st
    simp [matchPaths]
  | cons e entries ih =>
    intro st
    rw [List.foldl_cons, matchPaths_cons]
    by_cases h1 : skipEntryPath e.path
    · have hstep : scanStep st e = st := by simp [scanStep, h1]
      rw [hstep, ih st, if_neg (by simp [h1])]
    · by_cases h2 : isLogMatch e
      · rw [if_pos (by simp [h1, h2])]
        by_cases h3 : e.path = resultJsonName
        · have hstep : scanStep st e =
              { hasResultsJson := true, resultJsonPath := e.path,
                rootPrefix := st.rootPrefix } := by
            simp only [scanStep]
            rw [if_neg h1, if_pos h2, if_neg (by simp [h3])]
          rw [hstep, ih]
          simp only [ScanState.mk.injEq]
          refine ⟨by simp, (getLastD_cons _ _ _).symm, ?_⟩
          rw [List.filter_cons, if_neg (by simp [h3])]
        · have hstep : scanStep st e =
              { hasResultsJson := true, resultJsonPath := e.path,
                rootPrefix := dirJoin e.path } := by
            simp only [scanStep]
            rw [if_neg h1, if_pos h2, if_pos h3]
          rw [hstep, ih]
          simp only [ScanState.mk.injEq]
          refine ⟨by simp, (getLastD_cons _ _ _).symm, ?_⟩
          rw [List.filter_cons, if_pos (by simp [h3])]
          exact (getLastD_map_cons _ _ _ _).symm
      · have hstep : scanStep st e = st := by simp [scanStep, h1, h2]
        rw [hstep, ih st, if_neg (by simp [h2])]

lemma foldl_combStep_eq (oracle : Nat → Int × Int) (rp : JStr) (entries : List RawEntry) :
    ∀ st, entries.foldl (combStep oracle rp) st =
      (entries.filterMap (fun e => (adjustEntry rp e).map (fun a => (a, e.data)))).foldl
        (procCand oracle) st := by
  induction entries with
  | nil => intro st; rfl
  | cons e entries ih =>
    intro st
    cases ha : adjustEntry rp e with
    | none =>
      rw [List.foldl_cons]
      have hstep : combStep oracle rp st e = st := by simp [combStep, ha]
      rw [hstep, ih st, List.filterMap_cons]
      simp [ha]
    | some a =>
      rw [List.foldl_cons]
      have hstep : combStep oracle rp st e = procCand oracle st (a, e.data) := by
        simp [combStep, ha]
      rw [hstep, ih, List.filterMap_cons]
      simp only [ha, Option.map_some']
      rw [List.foldl_cons]

lemma combineFilesContent_eq (oracle : Nat → Int × Int) (st : CombState) (c : ZipContent) :
    combineFilesContent oracle st c = (candEntries c).foldl (procCand oracle) st :=
  foldl_combStep_eq oracle c.rootPrefix c.entries st

lemma combineFilesAll_eq (oracle : Nat → Int × Int) (cs : List ZipContent) :
    ∀ st, cs.foldl (combineFilesContent oracle) st =
      ((cs.map candEntries).flatten).foldl (procCand oracle) st := by
  induction cs with
  | nil => intro st; rfl
  | cons c cs ih =>
    intro st
    rw [List.foldl_cons, List.map_cons, List.flatten_cons, List.foldl_append,
      combineFilesContent_eq]
    exact ih _

lemma filterMap_pair_fst (rp : JStr) (entries : List RawEntry) :
    (entries.filterMap (fun e => (adjustEntry rp e).map (fun a => (a, e.data)))).map
        Prod.fst = entries.filterMap (adjustEntry rp) := by
  induction entries with
  | nil => rfl
  | cons e entries ih =>
    rw [List.filterMap_cons, List.filterMap_cons]
    cases ha : adjustEntry rp e <;> simp [ha, ih]

lemma candidatePaths_eq (contents : List ZipContent) :
    candidatePaths contents = (allCandEntries contents).map Prod.fst := by
  unfold candidatePaths allCandEntries
  rw [List.map_flatten, List.map_map]
  congr 1
  refine List.map_congr_left ?_
  intro c _
  exact (filterMap_pair_fst c.rootPrefix c.entries).symm

lemma procCand_of_none (oracle : Nat → Int × Int) (st : CombState) (pd : JStr × Nat)
    (h : assocGet pd.1 st.fileMap = none) :
    procCand oracle st pd =
      { fileMap := assocSet st.fileMap pd.1
          (getTimestampFromPath (oracle st.draws).1 (oracle st.draws).2 pd.1),
        folders := if (splitSlash pd.1).length > 1 then
            setAdd st.folders ((splitSlash pd.1).headD []) else st.folders,
        totalFiles := st.totalFiles + 1,
        zipOut := assocSet st.zipOut pd.1 (OutData.fileData pd.2),
        draws := st.draws + 1 } := by
  unfold procCand
  dsimp only
  by_cases hlen : (splitSlash pd.1).length > 1
  · rw [if_pos hlen]
    dsimp only
    rw [h]
    simp [hlen]
  · rw [if_neg hlen]
    rw [h]
    simp [hlen]

lemma procCand_run (oracle : Nat → Int × Int) :
    ∀ (cands : List (JStr × Nat)) (st : CombState),
    (cands.map Prod.fst).Nodup →
    (∀ a ∈ cands.map Prod.fst, a ∉ st.fileMap.map Prod.fst) →
    st.zipOut.map Prod.fst = st.fileMap.map Prod.fst →
    (cands.foldl (procCand oracle) st).totalFiles = st.totalFiles + cands.length ∧
    (cands.foldl (procCand oracle) st).fileMap.map Prod.fst =
      st.fileMap.map Prod.fst ++ cands.map Prod.fst ∧
    (cands.foldl (procCand oracle) st).zipOut.map Prod.fst =
      st.fileMap.map Prod.fst ++ cands.map Prod.fst := by
  intro cands
  induction cands with
  | nil =>
    intro st _ _ hsync
    refine ⟨by simp, by simp, by simpa using hsync⟩
  | cons pd tail ih =>
    intro st hnd hnotin hsync
    have hmem : pd.1 ∉ st.fileMap.map Prod.fst := hnotin pd.1 (by simp)
    have hget : assocGet pd.1 st.fileMap = none := by
      cases hh : assocGet pd.1 st.fileMap with
      | none => rfl
      | some w =>
        exact absurd ((assocGet_isSome_iff_mem _ _).mp (by simp [hh])) hmem
    have hgetz : assocGet pd.1 st.zipOut = none := by
      cases hh : assocGet pd.1 st.zipOut with
      | none => rfl
      | some w =>
        have hm := (assocGet_isSome_iff_mem pd.1 st.zipOut).mp (by simp [hh])
        rw [hsync] at hm
        exact absurd hm hmem
    rw [List.foldl_cons, procCand_of_none oracle st pd hget]
    have hkeys : (assocSet st.fileMap pd.1
        (getTimestampFromPath (oracle st.draws).1 (oracle st.draws).2 pd.1)).map Prod.fst =
        st.fileMap.map Prod.fst ++ [pd.1] := keys_assocSet_of_none _ hget
    have hkeysz : (assocSet st.zipOut pd.1 (OutData.fileData pd.2)).map Prod.fst =
        st.zipOut.map Prod.fst ++ [pd.1] := keys_assocSet_of_none _ hgetz
    have hhead : pd.1 ∉ tail.map Prod.fst := by
      have := hnd
      rw [List.map_cons] at this
      exact (List.nodup_cons.mp this).1
    obtain ⟨t1, t2, t3⟩ := ih
      { fileMap := assocSet st.fileMap pd.1
          (getTimestampFromPath (oracle st.draws).1 (oracle st.draws).2 pd.1),
        folders := if (splitSlash pd.1).length > 1 then
            setAdd st.folders ((splitSlash pd.1).headD []) else st.folders,
        totalFiles := st.totalFiles + 1,
        zipOut := assocSet st.zipOut pd.1 (OutData.fileData pd.2),
        draws := st.draws + 1 }
      (by rw [List.map_cons] at hnd; exact (List.nodup_cons.mp hnd).2)
      (by
        intro a ha
        dsimp only
        rw [hkeys, List.mem_append]
        rintro (hin | hin)
        · exact hnotin a (by simp [ha]) hin
        · rw [List.mem_singleton] at hin
          subst hin
          exact hhead ha)
      (by
        dsimp only
        rw [hkeys, hkeysz, hsync])
    dsimp only at t1 t2 t3
    rw [hkeys] at t2 t3
    refine ⟨?_, ?_, ?_⟩
    · rw [t1]
      simp only [List.length_cons]
      omega
    · rw [t2, List.map_cons, List.append_assoc]
      rfl
    · rw [t3, List.map_cons, List.append_assoc]
      rfl

lemma processFilePath_goodItem (rp : JStr) (fc : List (JStr × List JStr))
    (entries : List RawEntry) (st : List JStr × List FileItem) (filePath : JStr)
    (e : RawEntry) (he : e ∈ entries)
    (hadj : adjustedSummaryPath rp e = some filePath)
    (hst : ∀ it ∈ st.2, goodItem rp fc entries it) :
    ∀ it ∈ (processFilePath fc st filePath e).2, goodItem rp fc entries it := by
  intro it hit
  unfold processFilePath at hit
  dsimp only at hit
  split at hit
  · exact hst it hit
  · split at hit
    case isTrue hguard =>
      rcases List.mem_append.mp hit with hold | hnew
      · exact hst it hold
      · rw [List.mem_singleton] at hnew
        subst hnew
        constructor
        · intro hdir
          simp at hdir
        · intro _
          refine ⟨e, he, ?_, hadj, rfl⟩
          have := (Bool.and_eq_true _ _).mp hguard
          simpa using this.2
    case isFalse hguard =>
      rcases List.mem_append.mp hit with hold | hnew
      · exact hst it hold
      · rw [List.mem_singleton] at hnew
        subst hnew
        constructor
        · intro _
          exact ⟨rfl, rfl⟩
        · intro hdir
          simp at hdir

lemma summaryStep_goodItem (rp : JStr) (fc : List (JStr × List JStr))
    (entries : List RawEntry) (st : List JStr × List FileItem) (e : RawEntry)
    (he : e ∈ entries) (hst : ∀ it ∈ st.2, goodItem rp fc entries it) :
    ∀ it ∈ (summaryStep rp fc st e).2, goodItem rp fc entries it := by
  intro it hit
  unfold summaryStep at hit
  dsimp only at hit
  by_cases h1 : skipEntryPath e.path = true
  · rw [if_pos h1] at hit
    exact hst it hit
  · rw [if_neg h1] at hit
    by_cases h2 : (!rp.isEmpty) = true
    · rw [if_pos h2] at hit
      by_cases h3 : List.isPrefixOf rp e.path = true
      · rw [if_pos h3] at hit
        by_cases h4 : (!(e.path.drop rp.length).isEmpty) = true
        · rw [if_pos h4] at hit
          refine processFilePath_goodItem rp fc entries st _ e he ?_ hst it hit
          unfold adjustedSummaryPath
          rw [if_neg h1, if_pos h2, if_pos h3, if_pos h4]
        · rw [if_neg h4] at hit
          exact hst it hit
      · rw [if_neg h3] at hit
        exact hst it hit
    · rw [if_neg h2] at hit
      refine processFilePath_goodItem rp fc entries st _ e he ?_ hst it hit
      unfold adjustedSummaryPath
      rw [if_neg h1, if_neg h2]

lemma foldl_summaryStep_goodItem (rp : JStr) (fc : List (JStr × List JStr))
    (entries : List RawEntry) :
    ∀ (l : List RawEntry), (∀ e ∈ l, e ∈ entries) →
    ∀ (st : List JStr × List FileItem), (∀ it ∈ st.2, goodItem rp fc entries it) →
    ∀ it ∈ (l.foldl (summaryStep rp fc) st).2, goodItem rp fc entries it := by
  intro l
  induction l with
  | nil =>
    intro _ st hst
    simpa using hst
  | cons e l ih =>
    intro hsub st hst
    rw [List.foldl_cons]
    exact ih (fun e2 he2 => hsub e2 (List.mem_cons_of_mem e he2)) _
      (summaryStep_goodItem rp fc entries st e (hsub e (List.mem_cons_self e l)) hst)

lemma unzipFile_items_goodItem (lc : JStr → JStr → Int) (nm : JStr)
    (entries : List RawEntry) :
    ∀ it ∈ (unzipFile lc nm entries).topLevelItems,
      goodItem (scanForResultJson entries).rootPrefix
        (folderContentsOf (scanForResultJson entries).rootPrefix entries) entries it := by
  intro it hit
  unfold unzipFile at hit
  dsimp only at hit
  rw [(List.perm_insertionSort _ _).mem_iff] at hit
  exact foldl_summaryStep_goodItem _ _ entries entries (fun e he => he) ([], [])
    (by simp) it hit

lemma length_processMessage_le (m : List (Int × TelegramMessage)) (msg : TelegramMessage) :
    (processMessage m msg).length ≤ m.length + 1 := by
  unfold processMessage
  cases hh : assocGet msg.id m with
  | none =>
    unfold assocSet
    rw [hh]
    simp
  | some kept =>
    dsimp only
    by_cases he : (msg.edited && !kept.edited) = true
    · rw [if_pos he]
      unfold assocSet
      rw [hh]
      simp
    · rw [if_neg he]
      omega

lemma length_foldl_processMessage (msgs : List TelegramMessage) :
    ∀ m, (msgs.foldl processMessage m).length ≤ m.length + msgs.length := by
  induction msgs with
  | nil => intro m; simp
  | cons msg tail ih =>
    intro m
    rw [List.foldl_cons]
    have h1 := ih (processMessage m msg)
    have h2 := length_processMessage_le m msg
    simp only [List.length_cons]
    omega

lemma mem_keys_mergeMessages (msgs : List TelegramMessage) (i : Int) :
    i ∈ (mergeMessages msgs).map Prod.fst ↔ i ∈ msgs.map (fun x => x.id) := by
  rw [← assocGet_isSome_iff_mem]
  exact mergeMessages_isSome_iff msgs i

lemma goodMap_mergeMessages (msgs : List TelegramMessage) : goodMap (mergeMessages msgs) :=
  goodMap_foldl msgs [] goodMap_nil

lemma length_mergeMessages_append_self (msgs : List TelegramMessage) :
    (mergeMessages (msgs ++ msgs)).length = (mergeMessages msgs).length := by
  have h1 : ((mergeMessages (msgs ++ msgs)).map Prod.fst).Nodup :=
    (goodMap_mergeMessages (msgs ++ msgs)).1
  have h2 : ((mergeMessages msgs).map Prod.fst).Nodup := (goodMap_mergeMessages msgs).1
  have hmem : ∀ a, a ∈ (mergeMessages (msgs ++ msgs)).map Prod.fst ↔
      a ∈ (mergeMessages msgs).map Prod.fst := by
    intro a
    rw [mem_keys_mergeMessages, mem_keys_mergeMessages, List.map_append, List.mem_append,
      or_self]
  have hperm := (List.perm_ext_iff_of_nodup h1 h2).mpr hmem
  have hlen := hperm.length_eq
  rwa [List.length_map, List.length_map] at hlen

lemma totalInputOf_append (cs1 cs2 : List ZipContent) :
    totalInputOf (cs1 ++ cs2) = totalInputOf cs1 + totalInputOf cs2 := by
  simp [totalInputOf]

lemma parsedLogs_append (cs1 cs2 : List ZipContent) :
    parsedLogs (cs1 ++ cs2) = parsedLogs cs1 ++ parsedLogs cs2 := by
  simp [parsedLogs]

lemma totalInputOf_eq_parsed (cs : List ZipContent) :
    totalInputOf cs = ((parsedLogs cs).map (fun d => (msgsOf d).length)).sum := by
  induction cs with
  | nil => simp [totalInputOf, parsedLogs]
  | cons c cs ih =>
    rw [totalInputOf_cons, ih]
    cases hlog : c.log <;>
      simp [msgCountOf, parsedLogs, List.filterMap_cons, hlog]

lemma buildMessageMap_length_le (rs : List ResultData) :
    (buildMessageMap rs).length ≤ ((rs.map (fun d => (msgsOf d).length)).sum) := by
  rw [buildMessageMap_eq]
  have h := length_foldl_processMessage ((rs.map msgsOf).flatten) []
  rw [List.length_nil] at h
  unfold mergeMessages
  calc (((rs.map msgsOf).flatten).foldl processMessage []).length
      ≤ 0 + ((rs.map msgsOf).flatten).length := h
    _ = ((rs.map msgsOf).flatten).length := by omega
    _ = ((rs.map msgsOf).map List.length).sum := List.length_flatten _
    _ = (rs.map (fun d => (msgsOf d).length)).sum := by rw [List.map_map]; rfl

lemma sortMessages_length (l : List TelegramMessage) :
    (sortMessages l).length = l.length := by
  unfold sortMessages
  exact (List.perm_insertionSort _ l).length_eq

lemma adjustEntry_ne_resultJson (rp : JStr) (e : RawEntry) (a : JStr)
    (h : adjustEntry rp e = some a) : a ≠ resultJsonName := by
  unfold adjustEntry at h
  dsimp only at h
  split_ifs at h
  all_goals first
    | exact Option.noConfusion h
    | (injection h with h; subst h; assumption)

lemma candidatePaths_ne_resultJson (contents : List ZipContent) :
    ∀ a ∈ candidatePaths contents, a ≠ resultJsonName := by
  intro a ha
  unfold candidatePaths at ha
  rw [List.mem_flatten] at ha
  obtain ⟨l, hl, hal⟩ := ha
  rw [List.mem_map] at hl
  obtain ⟨c, _, hc⟩ := hl
  subst hc
  rw [List.mem_filterMap] at hal
  obtain ⟨e, _, he⟩ := hal
  exact adjustEntry_ne_resultJson c.rootPrefix e a he

/-- C1: in the global dedup across all archives, the record kept for
every id follows the claim policy (specKeptForId): a later record
replaces the kept one exactly when the new record carries an edit marker
and the kept one does not, first-seen wins otherwise; and merging the
demoMerge pair, where id 2 arrives edited before its plain copy, keeps
the edited variant. -/
theorem C1_dedup_policy :
    (∀ (rs : List ResultData) (i : Int),
      assocGet i (buildMessageMap rs) = specKeptForId i ((rs.map msgsOf).flatten)) ∧
    (mergeOk (combineResultJsonWithStats demoMerge)).map
        (fun o => o.combined.messages) =
      some [{ id := 1, edited := false, rest := 0 },
            { id := 2, edited := true, rest := 0 },
            { id := 3, edited := false, rest := 0 }] := by
  constructor
  · intro rs i
    rw [buildMessageMap_eq]
    unfold mergeMessages specKeptForId
    rw [foldl_processMessage_get]
    rfl
  · decide

/-- C3 counterexample: with two nested log copies, the claim predicts the
first match a/result.json wins, but the scan keeps the last match
b/result.json and derives rootPrefix b/ from it. -/
theorem C3_counterexample :
    specFirstMatchPath demoTwoLogs = some ("a/result.json".toList) ∧
    (scanForResultJson demoTwoLogs).resultJsonPath = "b/result.json".toList ∧
    (scanForResultJson demoTwoLogs).rootPrefix = "b/".toList ∧
    ("b/result.json".toList : JStr) ≠ "a/result.json".toList := by decide

/-- C3 amended: the log scan keeps the last matching candidate, not the
first: hasResultsJson records whether any candidate matched,
resultJsonPath is the last match, and rootPrefix is derived from the
last match that is not the bare filename (and keeps its initial empty
value only when no such match exists, even when the last match itself is
bare). -/
theorem C3_last_match_wins (entries : List RawEntry) :
    (scanForResultJson entries).hasResultsJson = !(matchPaths entries).isEmpty ∧
    (scanForResultJson entries).resultJsonPath = (matchPaths entries).getLast?.getD [] ∧
    (scanForResultJson entries).rootPrefix =
      (((matchPaths entries).filter (fun p => p ≠ resultJsonName)).getLast?.map
        dirJoin).getD [] := by
  unfold scanForResultJson
  rw [scan_foldl entries]
  exact ⟨by simp, rfl, rfl⟩

/-- C10: the recency score is a function of the clock and random draw as
well as the path, and the file-reconciliation winner is not a function of
the archives alone: on the same demoMedia input, a run whose two draws
see the same clock keeps the copy of the first archive with one write,
while a run whose clock advanced between the draws keeps the copy of the
second archive with two writes; all draws used are reachable clock and
random values. -/
theorem C10_nondeterministic_winner :
    validDraw (sameOracle 0) ∧ validDraw (sameOracle 1) ∧
    validDraw (laterOracle 0) ∧ validDraw (laterOracle 1) ∧
    getTimestampFromPath 1000 0 "media/a.bin".toList ≠
      getTimestampFromPath 2000 0 "media/a.bin".toList ∧
    (zipOk (combineZipContents sameOracle demoMedia)).map
        (fun o => assocGet "media/a.bin".toList o.files) =
      some (some (OutData.fileData 1)) ∧
    (zipOk (combineZipContents laterOracle demoMedia)).map
        (fun o => assocGet "media/a.bin".toList o.files) =
      some (some (OutData.fileData 2)) ∧
    (zipOk (combineZipContents sameOracle demoMedia)).map CombineZipOutput.totalFiles ≠
      (zipOk (combineZipContents laterOracle demoMedia)).map
        CombineZipOutput.totalFiles := by decide

lemma combine_ok_shape (contents : List ZipContent) (out : MergeOutput)
    (h : combineResultJsonWithStats contents = Except.ok out) :
    ∃ st : ParseState, parseAll initParseState contents = Except.ok st ∧
      st.resultJsons ≠ [] ∧
      out = { combined := { name := st.chatName, type := st.chatType,
                            id := st.firstChatId,
                            messages := sortMessages
                              ((buildMessageMap st.resultJsons).map Prod.snd) },
              totalMessages :=
                (sortMessages ((buildMessageMap st.resultJsons).map Prod.snd)).length,
              duplicateMessages := max 0 ((st.totalInputMessages : Int) -
                ((sortMessages ((buildMessageMap st.resultJsons).map Prod.snd)).length :
                  Int)) } := by
  unfold combineResultJsonWithStats at h
  split at h
  · exact absurd h (by simp)
  · split at h
    case h_1 e heq => exact absurd h (by simp)
    case h_2 st heq =>
      split at h
      case isTrue => exact absurd h (by simp)
      case isFalse hlen =>
        refine ⟨st, heq, ?_, ?_⟩
        · intro h0
          rw [h0] at hlen
          simp at hlen
        · dsimp only at h
          injection h with h
          exact h.symm

/-- C2: for every archive set the merge accepts, the merged message
sequence carries pairwise distinct ids and is sorted ascending by id. -/
theorem C2_messages_unique_sorted (contents : List ZipContent) (out : MergeOutput)
    (h : combineResultJsonWithStats contents = Except.ok out) :
    ((out.combined.messages.map (fun msg => msg.id)).Nodup) ∧
    out.combined.messages.Pairwise (fun a b => a.id ≤ b.id) := by
  obtain ⟨st, heq, hne, hout⟩ := combine_ok_shape contents out h
  subst hout
  constructor
  · have hids : (((buildMessageMap st.resultJsons).map Prod.snd).map (fun x => x.id)) =
        (buildMessageMap st.resultJsons).map Prod.fst :=
      values_ids_eq_keys (goodMap_buildMessageMap st.resultJsons).2
    have hnodup0 :
        ((((buildMessageMap st.resultJsons).map Prod.snd)).map (fun x => x.id)).Nodup := by
      rw [hids]
      exact (goodMap_buildMessageMap st.resultJsons).1
    have hperm :
        ((sortMessages ((buildMessageMap st.resultJsons).map Prod.snd)).map
          (fun x => x.id)).Perm
          (((buildMessageMap st.resultJsons).map Prod.snd).map (fun x => x.id)) :=
      (List.perm_insertionSort _ _).map _
    exact hnodup0.perm hperm.symm
  · unfold sortMessages
    exact List.sorted_insertionSort _ _

/-- C2 witness: the demoMerge pair is accepted and its merged sequence
has distinct ids and ascending order. -/
theorem C2_witness :
    combineResultJsonWithStats demoMerge = Except.ok demoMergeOut ∧
    (((demoMergeOut.combined.messages.map (fun msg => msg.id)).Nodup) ∧
      demoMergeOut.combined.messages.Pairwise (fun a b => a.id ≤ b.id)) :=
  ⟨rfl, C2_messages_unique_sorted demoMerge demoMergeOut rfl⟩

/-- C4: the duplicate statistic equals the clamped difference between the
total input message count and the length of the final deduplicated
sequence, is never negative, and totalMessages reports that length. -/
theorem C4_duplicates_clamped (contents : List ZipContent) (out : MergeOutput)
    (h : combineResultJsonWithStats contents = Except.ok out) :
    out.duplicateMessages =
      max 0 ((totalInputOf contents : Int) - (out.combined.messages.length : Int)) ∧
    0 ≤ out.duplicateMessages ∧
    out.totalMessages = out.combined.messages.length := by
  obtain ⟨st, heq, hne, hout⟩ := combine_ok_shape contents out h
  obtain ⟨-, htotal, -, -, -⟩ := parseAll_ok_spine contents initParseState st heq
  subst hout
  refine ⟨?_, le_max_left _ _, rfl⟩
  rw [htotal]
  simp [initParseState]

/-- C4 witness: the demoMerge statistics instantiate the clamp identity
with four input messages and three unique ones. -/
theorem C4_witness :
    combineResultJsonWithStats demoMerge = Except.ok demoMergeOut ∧
    (demoMergeOut.duplicateMessages =
      max 0 ((totalInputOf demoMerge : Int) -
        (demoMergeOut.combined.messages.length : Int)) ∧
    0 ≤ demoMergeOut.duplicateMessages ∧
    demoMergeOut.totalMessages = demoMergeOut.combined.messages.length) :=
  ⟨rfl, C4_duplicates_clamped demoMerge demoMergeOut rfl⟩

/-- C5: when some parseable log carries a chat id different from the
first parseable one and no log is malformed, the whole combine is
refused with the wrapped mismatch error naming both conflicting ids, and
no merged output is produced. -/
theorem C5_mismatch_refused (contents : List ZipContent) (i : Int) (rest : List Int)
    (hgood : ∀ c ∈ contents, goodLog c)
    (hchat : chatIds contents = i :: rest)
    (hex : ∃ j ∈ rest, j ≠ i) :
    ∃ nm j, j ≠ i ∧ combineResultJsonWithStats contents =
      Except.error (processingErrorMsg nm (chatIdMismatchMsg i j)) := by
  have hne : contents ≠ [] := by
    intro h0
    subst h0
    simp [chatIds] at hchat
  obtain ⟨nm, j, hj, herr⟩ :=
    parseAll_mismatch_start contents initParseState rfl hgood i rest hchat hex
  refine ⟨nm, j, hj, ?_⟩
  unfold combineResultJsonWithStats
  rw [if_neg (by simpa [List.length_eq_zero] using hne), herr]

/-- C5 witness: the 100 versus 200 pair is refused with an error built
from both ids. -/
theorem C5_witness :
    (∀ c ∈ demoMismatch, goodLog c) ∧
    chatIds demoMismatch = 100 :: [200] ∧
    (∃ j ∈ [(200 : Int)], j ≠ 100) ∧
    (∃ nm j, j ≠ (100 : Int) ∧ combineResultJsonWithStats demoMismatch =
      Except.error (processingErrorMsg nm (chatIdMismatchMsg 100 j))) := by
  have hgood : ∀ c ∈ demoMismatch, goodLog c := by
    intro c hc s
    simp only [demoMismatch, List.mem_cons, List.mem_singleton] at hc
    rcases hc with h | h | h
    · subst h; simp [mkLog]
    · subst h; simp [mkLog]
    · simp at h
  exact ⟨hgood, by decide, by decide,
    C5_mismatch_refused demoMismatch 100 [200] hgood (by decide) (by decide)⟩

lemma parseAll_append (xs ys : List ZipContent) : ∀ st,
    parseAll st (xs ++ ys) = match parseAll st xs with
      | Except.error e => Except.error e
      | Except.ok st1 => parseAll st1 ys := by
  induction xs with
  | nil => intro st; rfl
  | cons c xs ih =>
    intro st
    rw [List.cons_append]
    simp only [parseAll]
    cases parseStep st c with
    | error e => rfl
    | ok st1 => exact ih st1

/-- C6 counterexample: for the single archive demoSelfDup, whose log
repeats id 1, merging the set with itself keeps uniqueMessageCount 1 but
removes 3 duplicates, while the original total message count is 2, so
the claimed equality fails. -/
theorem C6_counterexample :
    (mergeOk (combineResultJsonWithStats demoSelfDup)).map MergeOutput.totalMessages =
      some 1 ∧
    (mergeOk (combineResultJsonWithStats (demoSelfDup ++ demoSelfDup))).map
      MergeOutput.totalMessages = some 1 ∧
    (mergeOk (combineResultJsonWithStats (demoSelfDup ++ demoSelfDup))).map
      MergeOutput.duplicateMessages = some 3 ∧
    totalInputOf demoSelfDup = 2 ∧ ((3 : Int) ≠ 2) := by decide

/-- C6 amended: merging a set with itself succeeds with the same
uniqueMessageCount, and its duplicatesRemoved equals the original total
message count plus the duplicates removed by the single merge (so it
equals the original total exactly when the single merge removed none). -/
theorem C6_self_merge (contents : List ZipContent) (out : MergeOutput)
    (h : combineResultJsonWithStats contents = Except.ok out) :
    ∃ out2, combineResultJsonWithStats (contents ++ contents) = Except.ok out2 ∧
      out2.totalMessages = out.totalMessages ∧
      out2.duplicateMessages = (totalInputOf contents : Int) + out.duplicateMessages := by
  obtain ⟨st, heq, hne, hout⟩ := combine_ok_shape contents out h
  obtain ⟨hrj, htotal, hgood, _, hnone⟩ := parseAll_ok_spine contents initParseState st heq
  have hrj2 : st.resultJsons = parsedLogs contents := by simpa [initParseState] using hrj
  have htotal2 : st.totalInputMessages = totalInputOf contents := by
    simpa [initParseState] using htotal
  have hplne : parsedLogs contents ≠ [] := by rw [← hrj2]; exact hne
  cases hhead : (parsedLogs contents).head? with
  | none => exact absurd (List.head?_eq_none_iff.mp hhead) hplne
  | some d0 =>
    obtain ⟨hfid, hids⟩ := hnone rfl d0 hhead
    have hrun := parseAll_run contents st d0.id hfid hgood hids
    have happ := parseAll_append contents contents initParseState
    rw [heq] at happ
    dsimp only at happ
    rw [hrun] at happ
    have hcne : contents ≠ [] := by
      intro h0
      subst h0
      simp [parsedLogs] at hplne
    have hccne : ¬((contents ++ contents).length = 0) := by
      simp only [List.length_append, Nat.add_eq_zero, List.length_eq_zero]
      intro hzz
      exact hcne hzz.1
    have hrjne : ¬((st.resultJsons ++ parsedLogs contents).length = 0) := by
      simp only [List.length_append, Nat.add_eq_zero, List.length_eq_zero]
      intro hzz
      exact hplne hzz.2
    have hcomb : combineResultJsonWithStats (contents ++ contents) = Except.ok
        { combined := { name := st.chatName, type := st.chatType,
                        id := st.firstChatId,
                        messages := sortMessages ((buildMessageMap
                          (st.resultJsons ++ parsedLogs contents)).map Prod.snd) },
          totalMessages := (sortMessages ((buildMessageMap
            (st.resultJsons ++ parsedLogs contents)).map Prod.snd)).length,
          duplicateMessages := max 0
            (((st.totalInputMessages + totalInputOf contents : Nat) : Int) -
              ((sortMessages ((buildMessageMap
                (st.resultJsons ++ parsedLogs contents)).map Prod.snd)).length : Int)) } := by
      unfold combineResultJsonWithStats
      rw [if_neg hccne, happ]
      dsimp only
      rw [if_neg hrjne]
    have hlen2 : (sortMessages ((buildMessageMap
        (st.resultJsons ++ parsedLogs contents)).map Prod.snd)).length =
        (sortMessages ((buildMessageMap st.resultJsons).map Prod.snd)).length := by
      rw [sortMessages_length, sortMessages_length, List.length_map, List.length_map,
        hrj2, buildMessageMap_eq, buildMessageMap_eq, List.map_append,
        List.flatten_append]
      exact length_mergeMessages_append_self _
    have hUle : ((sortMessages ((buildMessageMap st.resultJsons).map Prod.snd)).length :
        Int) ≤ (totalInputOf contents : Int) := by
      rw [sortMessages_length, List.length_map, hrj2, totalInputOf_eq_parsed]
      exact_mod_cast buildMessageMap_length_le (parsedLogs contents)
    refine ⟨_, hcomb, ?_, ?_⟩
    · subst hout
      dsimp only
      exact hlen2
    · subst hout
      dsimp only
      rw [hlen2, htotal2]
      rw [max_eq_right (by omega), max_eq_right (by omega)]
      omega

/-- C6 witness: the demoMerge pair doubled keeps three unique messages
and removes the original total four plus the single duplicate. -/
theorem C6_witness :
    combineResultJsonWithStats demoMerge = Except.ok demoMergeOut ∧
    (∃ out2, combineResultJsonWithStats (demoMerge ++ demoMerge) = Except.ok out2 ∧
      out2.totalMessages = demoMergeOut.totalMessages ∧
      out2.duplicateMessages =
        (totalInputOf demoMerge : Int) + demoMergeOut.duplicateMessages) :=
  ⟨rfl, C6_self_merge demoMerge demoMergeOut rfl⟩

/-- C7 counterexample: on demoMedia under laterOracle the second copy of
media/a.bin strictly outscores the first, so the write counter reaches 2
although only one distinct ordinary path is written; both draws are
reachable clock and random values. -/
theorem C7_counterexample :
    (zipOk (combineZipContents laterOracle demoMedia)).map CombineZipOutput.totalFiles =
      some 2 ∧
    (zipOk (combineZipContents laterOracle demoMedia)).map
      (fun o => (ordinaryFiles o).length) = some 1 ∧
    validDraw (laterOracle 0) ∧ validDraw (laterOracle 1) ∧ ((2 : Nat) ≠ 1) := by decide

/-- C7 amended: totalFiles counts write events, one per accepted copy, so
it equals the number of distinct root-relative ordinary paths written
exactly when no path receives a second, strictly higher-scoring copy; in
particular when the candidate paths are pairwise distinct, totalFiles
equals their number and the number of ordinary entries of the output. -/
theorem C7_totalFiles_counts (oracle : Nat → Int × Int) (contents : List ZipContent)
    (out : CombineZipOutput) (hnd : (candidatePaths contents).Nodup)
    (h : combineZipContents oracle contents = Except.ok out) :
    out.totalFiles = (candidatePaths contents).length ∧
    (ordinaryFiles out).length = out.totalFiles := by
  have hfold := combineFilesAll_eq oracle (contents.filter (fun c => !c.error)) initCombState
  have hcand := candidatePaths_eq contents
  obtain ⟨t1, t2, t3⟩ := procCand_run oracle (allCandEntries contents) initCombState
    (by rw [← candidatePaths_eq]; exact hnd)
    (by intro a ha; simp [initCombState])
    (by simp [initCombState])
  unfold combineZipContents at h
  dsimp only at h
  split at h
  · exact absurd h (by simp)
  · split at h
    case h_1 e heq => exact absurd h (by simp)
    case h_2 mo heq =>
      injection h with h
      subst h
      have hst : (contents.filter (fun c => !c.error)).foldl (combineFilesContent oracle)
          initCombState = (allCandEntries contents).foldl (procCand oracle) initCombState := by
        rw [hfold]
        rfl
      have hkeysz : ((allCandEntries contents).foldl (procCand oracle)
          initCombState).zipOut.map Prod.fst = candidatePaths contents := by
        rw [t3, hcand]
        simp [initCombState]
      have hrjn : assocGet resultJsonName ((allCandEntries contents).foldl (procCand oracle)
          initCombState).zipOut = none := by
        cases hh : assocGet resultJsonName ((allCandEntries contents).foldl (procCand oracle)
            initCombState).zipOut with
        | none => rfl
        | some w =>
          have hm := (assocGet_isSome_iff_mem resultJsonName
            ((allCandEntries contents).foldl (procCand oracle)
              initCombState).zipOut).mp (by rw [hh]; rfl)
          rw [hkeysz] at hm
          exact absurd rfl (candidatePaths_ne_resultJson contents _ hm)
      have hlenz : ((allCandEntries contents).foldl (procCand oracle)
          initCombState).zipOut.length = (candidatePaths contents).length := by
        have hc := congrArg List.length hkeysz
        rwa [List.length_map] at hc
      have htf : ((allCandEntries contents).foldl (procCand oracle)
          initCombState).totalFiles = (candidatePaths contents).length := by
        rw [t1, hcand, List.length_map]
        simp [initCombState]
      constructor
      · dsimp only
        rw [hst, htf]
      · dsimp only
        rw [hst]
        have hset : assocSet ((allCandEntries contents).foldl (procCand oracle)
            initCombState).zipOut resultJsonName (OutData.logData mo.combined) =
            ((allCandEntries contents).foldl (procCand oracle) initCombState).zipOut ++
              [(resultJsonName, OutData.logData mo.combined)] := by
          unfold assocSet
          rw [hrjn]
          simp
        unfold ordinaryFiles
        dsimp only
        rw [hset, List.filter_append]
        have hflt : (((allCandEntries contents).foldl (procCand oracle)
            initCombState).zipOut).filter (fun p => decide (p.1 ≠ resultJsonName)) =
            ((allCandEntries contents).foldl (procCand oracle) initCombState).zipOut := by
          rw [List.filter_eq_self]
          intro p hp
          have hmm : p.1 ∈ candidatePaths contents := by
            rw [← hkeysz]
            exact List.mem_map.mpr ⟨p, hp, rfl⟩
          simpa using candidatePaths_ne_resultJson contents p.1 hmm
        rw [hflt]
        have hnilf : ([(resultJsonName, OutData.logData mo.combined)].filter
            (fun p => decide (p.1 ≠ resultJsonName))) = [] := by simp
        rw [hnilf, List.append_nil, hlenz, htf]

/-- C7 witness: demoDistinct has pairwise distinct candidate paths and
its combine writes exactly those two ordinary files. -/
theorem C7_witness :
    (candidatePaths demoDistinct).Nodup ∧
    combineZipContents laterOracle demoDistinct = Except.ok demoDistinctOut ∧
    (demoDistinctOut.totalFiles = (candidatePaths demoDistinct).length ∧
      (ordinaryFiles demoDistinctOut).length = demoDistinctOut.totalFiles) :=
  ⟨by decide, rfl,
    C7_totalFiles_counts laterOracle demoDistinct demoDistinctOut (by decide) rfl⟩

/-- C9 counterexample: the top-level file a.txt of demoSized carries
size metadata 7, but its summary item reports size 0 because the source
reads the comment length, not the size metadata. -/
theorem C9_counterexample :
    ((unzipFile lc0 "demo.zip".toList demoSized).topLevelItems.find?
      (fun it => it.name = "a.txt".toList)).map FileItem.size = some 0 ∧
    (demoSized.find? (fun e => e.path = "a.txt".toList)).map specFileSize = some 7 ∧
    ((0 : Nat) ≠ 7) := by decide

/-- C9 amended: every item of the inspection summary satisfies goodItem:
a directory item has size zero and reports the number of root-relative
entries collected under its first segment, while a file item sits at the
root-adjusted path of its own non-directory archive entry and reports
that entry's comment length (falling back to zero), not the file's size
metadata. -/
theorem C9_item_fields (lc : JStr → JStr → Int) (nm : JStr) (entries : List RawEntry)
    (it : FileItem) (h : it ∈ (unzipFile lc nm entries).topLevelItems) :
    goodItem (scanForResultJson entries).rootPrefix
      (folderContentsOf (scanForResultJson entries).rootPrefix entries) entries it :=
  unzipFile_items_goodItem lc nm entries it h

/-- C9 witness: in the inspection of demoFolder, the photos item is a
directory of size zero with one collected child, and the result.json
item is a file reporting the two-character comment length of its own
entry. -/
theorem C9_witness :
    (demoDirItem ∈ (unzipFile lc0 "d.zip".toList demoFolder).topLevelItems ∧
      demoFileItem ∈ (unzipFile lc0 "d.zip".toList demoFolder).topLevelItems) ∧
    goodItem (scanForResultJson demoFolder).rootPrefix
      (folderContentsOf (scanForResultJson demoFolder).rootPrefix demoFolder)
      demoFolder demoDirItem ∧
    goodItem (scanForResultJson demoFolder).rootPrefix
      (folderContentsOf (scanForResultJson demoFolder).rootPrefix demoFolder)
      demoFolder demoFileItem :=
  ⟨⟨by decide, by decide⟩,
    C9_item_fields lc0 "d.zip".toList demoFolder demoDirItem (by decide),
    C9_item_fields lc0 "d.zip".toList demoFolder demoFileItem (by decide)⟩

end ZipUtils

